import Mathlib

/-!
Verification of the worker-lifecycle core of `src/app.py` (an async dashboard:
a background producer process emits timestamped samples through a
multiprocessing queue, controlled by stop/pause events, with start / pause /
clear buttons and a drain loop on the consumer side).

The embedding is shallow and sequential:
  * wall-clock instants are abstracted as natural numbers;
  * the worker loop `generate_data` is a step function over observations of
    the shared flags (the controller mutates the flags between iterations, so
    each iteration observes a flag pair and a clock value);
  * the whole app (session state plus the worker process seen from the
    controller) is a state machine over button / drain / worker-emission
    operations; two ghost fields record what the OS and the history would
    show: `osLive` counts live worker execution units, `emitted` logs every
    sample ever constructed by a worker.
-/

/-- One data record produced by the worker (`data = {'timestamp': ...,
'step': ..., 'pid': ...}` in `generate_data`).  The wall-clock instant is
abstracted as a `Nat`. -/
structure Sample where
  timestamp : Nat
  step : Nat
  pid : Nat
deriving DecidableEq, Repr

/-- A handle on a spawned worker process (`st.session_state.process`):
its OS identity and whether `is_alive()` reports true. -/
structure ProcHandle where
  pid : Nat
  alive : Bool
deriving DecidableEq, Repr

/-! ## Worker-level model of `generate_data`

Each loop iteration of `generate_data` observes the two shared events and the
wall clock; the controller may change the flags between iterations, so a run
of the loop is driven by a list of observations. -/

/-- What one worker-loop iteration observes: the shared `stop_event`, the
shared `pause_event`, and the current wall-clock instant. -/
structure Obs where
  stop : Bool
  pause : Bool
  now : Nat
deriving DecidableEq, Repr

/-- The state the worker itself mutates: the shared counter and the shared
queue (FIFO: `queue.put` appends at the tail). -/
structure ProdState where
  counter : Nat
  queue : List Sample
deriving DecidableEq, Repr

/-- What one iteration of the `while not stop_event.is_set()` loop did. -/
inductive WorkerAct where
  | halted
  | pausedIdle
  | emit
deriving DecidableEq, Repr

/-- How long the iteration sleeps, in milliseconds: `sleep(2)` after an
emission, `sleep(0.1)` in the paused branch, nothing when the loop exits. -/
def iterSleepMs : WorkerAct → Nat
  | .halted => 0
  | .pausedIdle => 100
  | .emit => 2000

/-- One iteration of `generate_data`: the loop condition checks `stop_event`
first; otherwise, if `pause_event` is not set, it increments the counter
under its lock, reads the new value back as `step`, builds the sample and
puts it on the queue; otherwise it only sleeps. -/
def workerStep (pid : Nat) (o : Obs) (s : ProdState) : ProdState × WorkerAct :=
  if o.stop = true then (s, .halted)
  else if o.pause = true then (s, .pausedIdle)
  else
    let c := s.counter + 1
    (⟨c, s.queue ++ [⟨o.now, c, pid⟩]⟩, .emit)

/-- Running the `generate_data` loop over a list of observations: the loop
stops consuming observations as soon as an iteration observes `stop_event`
set (the `while` condition fails and the process exits). -/
def workerRun (pid : Nat) (s : ProdState) : List Obs → ProdState × List WorkerAct
  | [] => (s, [])
  | o :: os =>
    match workerStep pid o s with
    | (s1, .halted) => (s1, [.halted])
    | (s1, .pausedIdle) =>
      let r := workerRun pid s1 os
      (r.1, .pausedIdle :: r.2)
    | (s1, .emit) =>
      let r := workerRun pid s1 os
      (r.1, .emit :: r.2)

/-! ## App-level model of `main`

`AppState` mirrors the session state initialized by
`initialize_session_state` plus two ghost fields: `osLive` counts the live
worker execution units the OS would report, and `emitted` logs every sample
ever constructed by a worker (append-only, never cleared). -/

/-- The session state of the app: `data_queue` (FIFO, head popped first,
puts append at the tail), the two events, the shared counter, the local
buffer `local_data`, the process handle and the `running` flag; plus the two
ghost observation fields `osLive` and `emitted`. -/
structure AppState where
  data_queue : List Sample
  stop_event : Bool
  pause_event : Bool
  counter : Nat
  local_data : List Sample
  process : Option ProcHandle
  running : Bool
  osLive : Nat
  emitted : List Sample
deriving DecidableEq, Repr

/-- The state after `initialize_session_state`: empty queue, both events
cleared, counter 0, empty buffer, no process, not running. -/
def initState : AppState :=
  ⟨[], false, false, 0, [], none, false, 0, []⟩

/-- `st.session_state.process is not None and st.session_state.process.is_alive()`. -/
def processAlive (s : AppState) : Bool :=
  match s.process with
  | some h => h.alive
  | none => false

/-- The `os.getpid()` the worker would stamp on a sample: the pid of the
held process handle (0 if none — only used when a worker exists). -/
def pidOfProc (s : AppState) : Nat :=
  match s.process with
  | some h => h.pid
  | none => 0

/-- The body of one emission by the worker, as seen through the shared
state: increment the counter under its lock, read the new value back as
`step`, build the sample, put it on the queue.  Also appends the sample to
the ghost emission log. -/
def rawEmit (now : Nat) (s : AppState) : AppState :=
  let c := s.counter + 1
  let x : Sample := ⟨now, c, pidOfProc s⟩
  { s with counter := c, data_queue := s.data_queue ++ [x],
           emitted := s.emitted ++ [x] }

/-- A worker emission as an app-level event: it happens only when a live
worker exists and its loop sees `stop_event` and `pause_event` both unset
(`generate_data` lines 14-26). -/
def workEmit (now : Nat) (s : AppState) : AppState :=
  if processAlive s = true ∧ s.stop_event = false ∧ s.pause_event = false then
    rawEmit now s
  else s

/-- The Start button body (lines 58-75).  The button is disabled while
`running`; the inner guard re-checks that no live process handle is held.
Then the code clears both events, constructs and stores a new `mp.Process`,
calls `.start()` on it, and sets `running = True`.  `ok` says whether the
OS could spawn the execution unit: on failure `.start()` raises after the
handle was already stored, so `running = True` is never reached.  Returns
the new state and whether an exception was surfaced to the caller. -/
def startClick (ok : Bool) (pid : Nat) (s : AppState) : AppState × Bool :=
  if s.running = true then (s, false)
  else if s.process = none ∨ processAlive s = false then
    let s1 := { s with stop_event := false, pause_event := false }
    if ok then
      ({ s1 with process := some ⟨pid, true⟩, running := true,
                 osLive := s1.osLive + 1 }, false)
    else
      ({ s1 with process := some ⟨pid, false⟩ }, true)
  else (s, false)

/-- The Pause button body (lines 77-82), disabled unless `running`: flips
`pause_event`. -/
def pauseClick (s : AppState) : AppState :=
  if s.running = true then
    if s.pause_event = true then { s with pause_event := false }
    else { s with pause_event := true }
  else s

/-- `stop_event.set(); process.join()` (lines 87-89).  Between the set and
the moment the worker observes it, the worker may finish iterations already
past the stop check: `residual` lists the wall-clock instants of those
emissions.  The join returns once the worker has exited, so the handle stops
being alive and the OS sees one fewer live unit. -/
def joinWorker (residual : List Nat) (s : AppState) : AppState :=
  let s1 := { s with stop_event := true }
  let s2 := residual.foldl (fun t now => rawEmit now t) s1
  { s2 with process := s2.process.map (fun h => ⟨h.pid, false⟩),
            osLive := s2.osLive - 1 }

/-- The Clear button body (lines 85-105), disabled unless the buffer is
nonempty or `running`: join the worker if alive, empty `local_data`, zero
the counter under its lock, drop the handle, unset `running`, then pop the
queue until empty, discarding. -/
def clearClick (residual : List Nat) (s : AppState) : AppState :=
  if s.local_data ≠ [] ∨ s.running = true then
    let s1 := if processAlive s = true then joinWorker residual s else s
    { s1 with local_data := [], counter := 0, process := none,
              running := false, data_queue := [] }
  else s

/-- The drain loop (lines 118-126): only when `running`, pop the queue with
`get_nowait` until empty, appending each popped sample to `local_data` in
pop order.  (The ISO string is converted back to an instant on the way; the
conversion is lossless, see `fromisoformat_isoformat`.) -/
def drainStep (s : AppState) : AppState :=
  if s.running = true then
    { s with local_data := s.local_data ++ s.data_queue, data_queue := [] }
  else s

/-- The events the app state reacts to: the three buttons, one drain pass of
the consumer loop, and one emission by the worker process. -/
inductive Op where
  | start (ok : Bool) (pid : Nat)
  | pause
  | clear (residual : List Nat)
  | drain
  | work (now : Nat)
deriving DecidableEq, Repr

/-- Apply one event to the app state. -/
def applyOp (op : Op) (s : AppState) : AppState :=
  match op with
  | .start ok pid => (startClick ok pid s).1
  | .pause => pauseClick s
  | .clear residual => clearClick residual s
  | .drain => drainStep s
  | .work now => workEmit now s

/-- Run a sequence of events from a state. -/
def runOps (s : AppState) : List Op → AppState
  | [] => s
  | op :: ops => runOps (applyOp op s) ops

/-! ## Serialization

Modelled from the spec: the repository serializes through
`datetime.isoformat` / `datetime.fromisoformat` and pandas `to_csv`, none of
which are in `src/`.  Instants are abstracted as `Nat`, and their external
string form is modelled as the decimal digit string — like ISO-8601 it is an
injective rendering that contains neither `,` nor a newline, which is all
the round-trip depends on.  The CSV artifact has the header row
`timestamp,step,pid`, one comma-separated row per sample in buffer order,
each row terminated by a newline. -/

/-- The character for one decimal digit. -/
def toDigitChar (d : Nat) : Char :=
  Char.ofNat (48 + d)

/-- The value of one decimal digit character, `none` on any other
character. -/
def digitVal (c : Char) : Option Nat :=
  if '0' ≤ c ∧ c ≤ '9' then some (c.toNat - 48) else none

/-- Decimal rendering with explicit fuel (structural recursion, so the
rendering evaluates by kernel reduction); the fuel never runs out when it
exceeds the number being rendered. -/
def natToCharsFuel : Nat → Nat → List Char
  | 0, _ => []
  | fuel + 1, n =>
    if n < 10 then [toDigitChar n]
    else natToCharsFuel fuel (n / 10) ++ [toDigitChar (n % 10)]

/-- Decimal rendering of a natural number, most significant digit first. -/
def natToChars (n : Nat) : List Char :=
  natToCharsFuel (n + 1) n

theorem natToCharsFuel_irrel :
    ∀ (fuel fuel2 n : Nat), n < fuel → n < fuel2 →
      natToCharsFuel fuel n = natToCharsFuel fuel2 n := by
  intro fuel
  induction fuel with
  | zero => intro fuel2 n h; exact absurd h (Nat.not_lt_zero n)
  | succ fuel ih =>
    intro fuel2 n h h2
    cases fuel2 with
    | zero => exact absurd h2 (Nat.not_lt_zero n)
    | succ fuel2 =>
      show (if n < 10 then [toDigitChar n]
          else natToCharsFuel fuel (n / 10) ++ [toDigitChar (n % 10)]) =
        (if n < 10 then [toDigitChar n]
          else natToCharsFuel fuel2 (n / 10) ++ [toDigitChar (n % 10)])
      by_cases hn : n < 10
      · rw [if_pos hn, if_pos hn]
      · have hlt : n / 10 < n :=
          Nat.div_lt_self (Nat.lt_of_lt_of_le (by decide) (Nat.le_of_not_lt hn)) (by decide)
        rw [if_neg hn, if_neg hn,
          ih fuel2 (n / 10) (Nat.lt_of_lt_of_le hlt (Nat.lt_succ_iff.mp h))
            (Nat.lt_of_lt_of_le hlt (Nat.lt_succ_iff.mp h2))]

/-- The one-step unfolding of the decimal rendering. -/
theorem natToChars_eq (n : Nat) :
    natToChars n = if n < 10 then [toDigitChar n]
      else natToChars (n / 10) ++ [toDigitChar (n % 10)] := by
  show (if n < 10 then [toDigitChar n]
      else natToCharsFuel n (n / 10) ++ [toDigitChar (n % 10)]) = _
  by_cases hn : n < 10
  · rw [if_pos hn, if_pos hn]
  · have hlt : n / 10 < n :=
      Nat.div_lt_self (Nat.lt_of_lt_of_le (by decide) (Nat.le_of_not_lt hn)) (by decide)
    rw [if_neg hn, if_neg hn,
      natToCharsFuel_irrel n (n / 10 + 1) (n / 10) hlt (Nat.lt_succ_self _)]
    rfl

/-- Accumulating decimal parse of a character list; fails on any
non-digit. -/
def charsToNatAux (acc : Nat) : List Char → Option Nat
  | [] => some acc
  | c :: cs =>
    match digitVal c with
    | some d => charsToNatAux (acc * 10 + d) cs
    | none => none

/-- Parse a nonempty all-digit character list as a natural number. -/
def charsToNat : List Char → Option Nat
  | [] => none
  | c :: cs => charsToNatAux 0 (c :: cs)

/-- Modelled from the spec: the external string form of an instant
(`datetime.isoformat` in the source), abstracted to the decimal rendering of
the `Nat` instant. -/
def isoformat (t : Nat) : String :=
  ⟨natToChars t⟩

/-- Modelled from the spec: parsing the external string form back to an
instant (`datetime.fromisoformat` in the source). -/
def fromisoformat (s : String) : Option Nat :=
  charsToNat s.toList

/-- Split a character list on a separator character; like
`str.split(sep)`, always returns one (possibly empty) group more than the
number of separators. -/
def splitOnChar (sep : Char) : List Char → List (List Char)
  | [] => [[]]
  | c :: cs =>
    if c = sep then [] :: splitOnChar sep cs
    else
      match splitOnChar sep cs with
      | [] => [[c]]
      | g :: gs => (c :: g) :: gs

/-- One CSV data row for a sample: the three fields in column order
`timestamp,step,pid`, comma-separated, without the terminating newline. -/
def rowChars (x : Sample) : List Char :=
  natToChars x.timestamp ++ ',' :: (natToChars x.step ++ ',' :: natToChars x.pid)

/-- The CSV header row `timestamp,step,pid`. -/
def headerChars : List Char :=
  "timestamp,step,pid".toList

/-- The data rows of the CSV artifact, each terminated by a newline. -/
def csvBody : List Sample → List Char
  | [] => []
  | x :: l => rowChars x ++ '\n' :: csvBody l

/-- Modelled from the spec: the persisted CSV artifact for a buffer of
samples (pandas `to_csv(index=False)` in the source): header row, then one
row per sample in buffer order, each row newline-terminated. -/
def toCsv (l : List Sample) : String :=
  ⟨headerChars ++ '\n' :: csvBody l⟩

/-- Parse one CSV data row: exactly three comma-separated numeric fields. -/
def parseRow (row : List Char) : Option Sample :=
  match splitOnChar ',' row with
  | [a, b, c] =>
    match charsToNat a, charsToNat b, charsToNat c with
    | some t, some st, some p => some ⟨t, st, p⟩
    | _, _, _ => none
  | _ => none

/-- Parse the newline-split data rows; the trailing empty group after the
last newline ends the list. -/
def parseLines : List (List Char) → Option (List Sample)
  | [[]] => some []
  | row :: rest =>
    match parseRow row, parseLines rest with
    | some x, some l => some (x :: l)
    | _, _ => none
  | [] => none

/-- Modelled from the spec: parse a CSV artifact back into the ordered
sample sequence — header row first, then newline-terminated data rows. -/
def parseCsv (s : String) : Option (List Sample) :=
  match splitOnChar '\n' s.toList with
  | h :: rest => if h = headerChars then parseLines rest else none
  | [] => none

/-! ## Round-trip lemmas for the serialization -/

theorem digitVal_toDigitChar {d : Nat} (h : d < 10) :
    digitVal (toDigitChar d) = some d := by
  interval_cases d <;> decide

theorem toDigitChar_ne_comma {d : Nat} (h : d < 10) : toDigitChar d ≠ ',' := by
  interval_cases d <;> decide

theorem toDigitChar_ne_newline {d : Nat} (h : d < 10) : toDigitChar d ≠ '\n' := by
  interval_cases d <;> decide

theorem natToChars_ne_nil (n : Nat) : natToChars n ≠ [] := by
  rw [natToChars_eq]
  split
  · simp
  · simp

theorem comma_not_mem_natToChars (n : Nat) : ',' ∉ natToChars n := by
  induction n using Nat.strong_induction_on with
  | _ n ih =>
    rw [natToChars_eq]
    split
    · next h =>
      simp only [List.mem_singleton]
      exact fun hc => toDigitChar_ne_comma h hc.symm
    · next h =>
      have hd : n / 10 < n :=
        Nat.div_lt_self (Nat.lt_of_lt_of_le (by decide) (Nat.le_of_not_lt h)) (by decide)
      simp only [List.mem_append, List.mem_singleton]
      rintro (hc | hc)
      · exact ih (n / 10) hd hc
      · exact toDigitChar_ne_comma (Nat.mod_lt _ (by decide)) hc.symm

theorem newline_not_mem_natToChars (n : Nat) : '\n' ∉ natToChars n := by
  induction n using Nat.strong_induction_on with
  | _ n ih =>
    rw [natToChars_eq]
    split
    · next h =>
      simp only [List.mem_singleton]
      exact fun hc => toDigitChar_ne_newline h hc.symm
    · next h =>
      have hd : n / 10 < n :=
        Nat.div_lt_self (Nat.lt_of_lt_of_le (by decide) (Nat.le_of_not_lt h)) (by decide)
      simp only [List.mem_append, List.mem_singleton]
      rintro (hc | hc)
      · exact ih (n / 10) hd hc
      · exact toDigitChar_ne_newline (Nat.mod_lt _ (by decide)) hc.symm

theorem charsToNatAux_append (xs : List Char) :
    ∀ (acc a : Nat), charsToNatAux acc xs = some a →
      ∀ ys, charsToNatAux acc (xs ++ ys) = charsToNatAux a ys := by
  induction xs with
  | nil =>
    intro acc a h ys
    simp only [charsToNatAux] at h
    cases h
    rfl
  | cons c cs ih =>
    intro acc a h ys
    simp only [charsToNatAux] at h ⊢
    cases hd : digitVal c with
    | none => rw [hd] at h; exact absurd h (by simp)
    | some d =>
      rw [hd] at h
      exact ih _ _ h ys

theorem charsToNatAux_natToChars (n : Nat) :
    ∀ acc : Nat,
      charsToNatAux acc (natToChars n) =
        some (acc * 10 ^ (natToChars n).length + n) := by
  induction n using Nat.strong_induction_on with
  | _ n ih =>
    intro acc
    rw [natToChars_eq]
    split
    · next h =>
      simp [charsToNatAux, digitVal_toDigitChar h]
    · next h =>
      have hd : n / 10 < n :=
        Nat.div_lt_self (Nat.lt_of_lt_of_le (by decide) (Nat.le_of_not_lt h)) (by decide)
      rw [charsToNatAux_append _ _ _ (ih (n / 10) hd acc)]
      have hm : n % 10 < 10 := Nat.mod_lt _ (by decide)
      simp only [charsToNatAux, digitVal_toDigitChar hm, List.length_append,
        List.length_singleton]
      congr 1
      have hdm : 10 * (n / 10) + n % 10 = n := Nat.div_add_mod n 10
      rw [pow_succ]
      ring_nf
      omega

theorem charsToNat_natToChars (n : Nat) : charsToNat (natToChars n) = some n := by
  have h0 := charsToNatAux_natToChars n 0
  have hne := natToChars_ne_nil n
  cases hc : natToChars n with
  | nil => exact absurd hc hne
  | cons c cs =>
    rw [hc] at h0
    simpa [charsToNat] using h0

theorem fromisoformat_isoformat (t : Nat) :
    fromisoformat (isoformat t) = some t := by
  simpa [fromisoformat, isoformat, String.toList] using charsToNat_natToChars t

theorem splitOnChar_not_mem {sep : Char} {x : List Char} (h : sep ∉ x) :
    splitOnChar sep x = [x] := by
  induction x with
  | nil => rfl
  | cons c cs ih =>
    have hc : ¬c = sep := fun hc => h (by simp [hc])
    have hcs : sep ∉ cs := fun hm => h (List.mem_cons_of_mem _ hm)
    simp only [splitOnChar, if_neg hc, ih hcs]

theorem splitOnChar_append_sep {sep : Char} {x : List Char} (h : sep ∉ x)
    (y : List Char) :
    splitOnChar sep (x ++ sep :: y) = x :: splitOnChar sep y := by
  induction x with
  | nil => simp [splitOnChar]
  | cons c cs ih =>
    have hc : ¬c = sep := fun hc => h (by simp [hc])
    have hcs : sep ∉ cs := fun hm => h (List.mem_cons_of_mem _ hm)
    simp only [List.cons_append, splitOnChar, if_neg hc, List.append_eq, ih hcs]

theorem newline_not_mem_rowChars (x : Sample) : '\n' ∉ rowChars x := by
  intro h
  simp only [rowChars, List.mem_append, List.mem_cons] at h
  rcases h with hc | hc | hc | hc | hc
  · exact newline_not_mem_natToChars _ hc
  · exact absurd hc (by decide)
  · exact newline_not_mem_natToChars _ hc
  · exact absurd hc (by decide)
  · exact newline_not_mem_natToChars _ hc

theorem parseRow_rowChars (x : Sample) : parseRow (rowChars x) = some x := by
  have h1 : splitOnChar ',' (rowChars x) =
      [natToChars x.timestamp, natToChars x.step, natToChars x.pid] := by
    rw [rowChars, splitOnChar_append_sep (comma_not_mem_natToChars _),
      splitOnChar_append_sep (comma_not_mem_natToChars _),
      splitOnChar_not_mem (comma_not_mem_natToChars _)]
  simp [parseRow, h1, charsToNat_natToChars]

theorem splitOnChar_csvBody (l : List Sample) :
    splitOnChar '\n' (csvBody l) = List.map rowChars l ++ [[]] := by
  induction l with
  | nil => rfl
  | cons x l ih =>
    rw [csvBody, splitOnChar_append_sep (newline_not_mem_rowChars x), ih]
    rfl

theorem parseLines_cons_cons (row r : List Char) (rest : List (List Char)) :
    parseLines (row :: r :: rest) =
      match parseRow row, parseLines (r :: rest) with
      | some x, some l => some (x :: l)
      | _, _ => none := by
  cases row <;> rfl

theorem parseLines_map_rowChars (l : List Sample) :
    parseLines (List.map rowChars l ++ [[]]) = some l := by
  induction l with
  | nil => rfl
  | cons x l ih =>
    have hne : List.map rowChars l ++ [[]] ≠ [] := by simp
    obtain ⟨r, rs, hr⟩ := List.exists_cons_of_ne_nil hne
    simp only [List.map_cons, List.cons_append, hr]
    rw [parseLines_cons_cons, parseRow_rowChars, ← hr, ih]

theorem parseCsv_toCsv (l : List Sample) : parseCsv (toCsv l) = some l := by
  have hhd : '\n' ∉ headerChars := by decide
  have htl : (toCsv l).toList = headerChars ++ '\n' :: csvBody l := rfl
  rw [parseCsv, htl, splitOnChar_append_sep hhd, splitOnChar_csvBody]
  simp [parseLines_map_rowChars]

/-! ## The reachability invariant of the app state -/

/-- Invariant: the OS live-unit count matches the handle's aliveness (so it
never exceeds one); `running` is exactly handle aliveness; the steps of the
not-yet-cleared samples (buffer then queue) are exactly `1, 2, ...,
counter`; and buffer-plus-queue is a suffix of the emission history, so
every retained sample is a worker-constructed record held unchanged. -/
def StateInv (s : AppState) : Prop :=
  s.osLive = (if processAlive s = true then 1 else 0) ∧
  s.running = processAlive s ∧
  List.map Sample.step (s.local_data ++ s.data_queue) = List.range' 1 s.counter ∧
  (s.local_data ++ s.data_queue) <:+ s.emitted

theorem inv_initState : StateInv initState :=
  ⟨rfl, rfl, rfl, List.nil_suffix⟩

theorem rawEmit_data (now : Nat) (s : AppState)
    (h3 : List.map Sample.step (s.local_data ++ s.data_queue) = List.range' 1 s.counter)
    (h4 : (s.local_data ++ s.data_queue) <:+ s.emitted) :
    List.map Sample.step ((rawEmit now s).local_data ++ (rawEmit now s).data_queue) =
        List.range' 1 (rawEmit now s).counter ∧
      ((rawEmit now s).local_data ++ (rawEmit now s).data_queue) <:+
        (rawEmit now s).emitted := by
  constructor
  · show List.map Sample.step
        (s.local_data ++ (s.data_queue ++ [⟨now, s.counter + 1, pidOfProc s⟩])) =
      List.range' 1 (s.counter + 1)
    rw [← List.append_assoc, List.map_append, h3, List.range'_1_concat]
    simp [Nat.add_comm]
  · obtain ⟨t, ht⟩ := h4
    refine ⟨t, ?_⟩
    have hstep : t ++ ((s.local_data ++ s.data_queue) ++
          [(⟨now, s.counter + 1, pidOfProc s⟩ : Sample)]) =
        s.emitted ++ [⟨now, s.counter + 1, pidOfProc s⟩] := by
      rw [← List.append_assoc, ht]
    simpa [rawEmit, List.append_assoc] using hstep

theorem rawEmit_inv (now : Nat) (s : AppState) (h : StateInv s) : StateInv (rawEmit now s) := by
  obtain ⟨h1, h2, h3, h4⟩ := h
  obtain ⟨g3, g4⟩ := rawEmit_data now s h3 h4
  exact ⟨h1, h2, g3, g4⟩

theorem foldl_rawEmit_inv (res : List Nat) (s : AppState) (h : StateInv s) :
    StateInv (res.foldl (fun t n2 => rawEmit n2 t) s) := by
  induction res generalizing s with
  | nil => exact h
  | cons a res ih =>
    rw [List.foldl_cons]
    exact ih _ (rawEmit_inv a s h)

theorem foldl_rawEmit_process (res : List Nat) (s : AppState) :
    (res.foldl (fun t n2 => rawEmit n2 t) s).process = s.process := by
  induction res generalizing s with
  | nil => rfl
  | cons a res ih =>
    rw [List.foldl_cons]
    exact ih (rawEmit a s)

theorem foldl_rawEmit_osLive (res : List Nat) (s : AppState) :
    (res.foldl (fun t n2 => rawEmit n2 t) s).osLive = s.osLive := by
  induction res generalizing s with
  | nil => rfl
  | cons a res ih =>
    rw [List.foldl_cons]
    exact ih (rawEmit a s)

theorem inv_startClick (ok : Bool) (pid : Nat) (s : AppState) (h : StateInv s) :
    StateInv (startClick ok pid s).1 := by
  obtain ⟨h1, h2, h3, h4⟩ := h
  unfold startClick
  split
  · exact ⟨h1, h2, h3, h4⟩
  · split
    · next hguard =>
      have halive : processAlive s = false := by
        rcases hguard with hp | hp
        · simp [processAlive, hp]
        · exact hp
      rw [halive] at h1
      simp only [if_false, Bool.false_eq_true] at h1
      cases ok with
      | true =>
        refine ⟨?_, ?_, h3, h4⟩
        · simp [processAlive, h1]
        · simp [processAlive]
      | false =>
        have hrun : s.running = false := by rw [h2]; exact halive
        refine ⟨?_, ?_, h3, h4⟩
        · simp [processAlive, h1]
        · simp [processAlive, hrun]
    · exact ⟨h1, h2, h3, h4⟩

theorem inv_pauseClick (s : AppState) (h : StateInv s) : StateInv (pauseClick s) := by
  obtain ⟨h1, h2, h3, h4⟩ := h
  unfold pauseClick
  split
  · split
    · exact ⟨h1, h2, h3, h4⟩
    · exact ⟨h1, h2, h3, h4⟩
  · exact ⟨h1, h2, h3, h4⟩

theorem inv_clearClick (residual : List Nat) (s : AppState) (h : StateInv s) :
    StateInv (clearClick residual s) := by
  obtain ⟨h1, h2, h3, h4⟩ := h
  unfold clearClick
  split
  · refine ⟨?_, ?_, rfl, List.nil_suffix⟩
    · split
      · next halive =>
        rw [halive] at h1
        simp only [if_pos rfl] at h1
        simp [joinWorker, processAlive, foldl_rawEmit_osLive, h1]
      · next halive =>
        rw [eq_false_of_ne_true halive] at h1
        simp only [Bool.false_eq_true, if_false] at h1
        simp [processAlive, h1]
    · simp [processAlive]
  · exact ⟨h1, h2, h3, h4⟩

theorem inv_drainStep (s : AppState) (h : StateInv s) : StateInv (drainStep s) := by
  obtain ⟨h1, h2, h3, h4⟩ := h
  unfold drainStep
  split
  · refine ⟨h1, h2, ?_, ?_⟩
    · simpa using h3
    · simpa using h4
  · exact ⟨h1, h2, h3, h4⟩

theorem inv_workEmit (now : Nat) (s : AppState) (h : StateInv s) : StateInv (workEmit now s) := by
  unfold workEmit
  split
  · exact rawEmit_inv now s h
  · exact h

theorem inv_applyOp (op : Op) (s : AppState) (h : StateInv s) : StateInv (applyOp op s) := by
  cases op with
  | start ok pid => exact inv_startClick ok pid s h
  | pause => exact inv_pauseClick s h
  | clear residual => exact inv_clearClick residual s h
  | drain => exact inv_drainStep s h
  | work now => exact inv_workEmit now s h

theorem inv_runOps (ops : List Op) (s : AppState) (h : StateInv s) : StateInv (runOps s ops) := by
  induction ops generalizing s with
  | nil => exact h
  | cons op ops ih => exact ih _ (inv_applyOp op s h)

theorem inv_reach (ops : List Op) : StateInv (runOps initState ops) :=
  inv_runOps ops initState inv_initState

/-! ## Helper lemmas about the lifecycle operations -/

theorem clearClick_state (residual : List Nat) (s : AppState)
    (henabled : s.local_data ≠ [] ∨ s.running = true) :
    (clearClick residual s).local_data = [] ∧
    (clearClick residual s).counter = 0 ∧
    (clearClick residual s).running = false ∧
    (clearClick residual s).data_queue = [] ∧
    (clearClick residual s).process = none := by
  unfold clearClick
  rw [if_pos henabled]
  exact ⟨rfl, rfl, rfl, rfl, rfl⟩

theorem clearClick_disabled (residual : List Nat) (s : AppState)
    (h : ¬(s.local_data ≠ [] ∨ s.running = true)) :
    clearClick residual s = s := by
  unfold clearClick
  rw [if_neg h]

theorem startClick_fields (pid : Nat) (s : AppState) (hr : s.running = false)
    (hp : s.process = none) :
    (startClick true pid s).1 =
      { s with stop_event := false, pause_event := false,
               process := some ⟨pid, true⟩, running := true,
               osLive := s.osLive + 1 } := by
  unfold startClick
  rw [if_neg (by simp [hr]), if_pos (Or.inl hp)]
  rfl

/-! ## Claim theorems -/

/-- C1: after `clear()` returns, invoked from any state in which the button
is enabled and whatever residual samples the joined worker still pushed, the
local buffer is empty, the shared counter is 0, `running` is false, and the
handoff queue is empty; invoking `clear()` again from that resulting state
leaves all four facts unchanged. -/
theorem clear_resets_and_idempotent (s : AppState) (residual : List Nat)
    (henabled : s.local_data ≠ [] ∨ s.running = true) :
    ((clearClick residual s).local_data = [] ∧
     (clearClick residual s).counter = 0 ∧
     (clearClick residual s).running = false ∧
     (clearClick residual s).data_queue = []) ∧
    ∀ residual2 : List Nat,
      (clearClick residual2 (clearClick residual s)).local_data = [] ∧
      (clearClick residual2 (clearClick residual s)).counter = 0 ∧
      (clearClick residual2 (clearClick residual s)).running = false ∧
      (clearClick residual2 (clearClick residual s)).data_queue = [] := by
  obtain ⟨a, b, c, d, e⟩ := clearClick_state residual s henabled
  refine ⟨⟨a, b, c, d⟩, ?_⟩
  intro residual2
  rw [clearClick_disabled residual2 _ (by simp [a, c])]
  exact ⟨a, b, c, d⟩

theorem clear_resets_and_idempotent_witness :
    ((runOps initState [.start true 5, .work 3]).local_data ≠ [] ∨
      (runOps initState [.start true 5, .work 3]).running = true) ∧
    (clearClick [] (runOps initState [.start true 5, .work 3])).counter = 0 ∧
    (clearClick [7] (clearClick [] (runOps initState [.start true 5, .work 3]))).data_queue = [] :=
  ⟨by decide,
   (clear_resets_and_idempotent (runOps initState [.start true 5, .work 3]) []
      (by decide)).1.2.1,
   ((clear_resets_and_idempotent (runOps initState [.start true 5, .work 3]) []
      (by decide)).2 [7]).2.2.2⟩

/-- C2: along every event sequence from the initial state, at most one live
worker execution unit exists; moreover `startClick` changes the live-unit
count only when no handle exists or the held handle is not alive, and an
enabled `clearClick` on a live worker joins it (one fewer live unit) before
releasing the handle (`process = none` afterwards). -/
theorem at_most_one_live_worker (ops : List Op) (s : AppState) (ok : Bool)
    (pid : Nat) (residual : List Nat) :
    (runOps initState ops).osLive ≤ 1 ∧
    ((startClick ok pid s).1.osLive ≠ s.osLive →
      (s.process = none ∨ processAlive s = false)) ∧
    (processAlive s = true → (s.local_data ≠ [] ∨ s.running = true) →
      (clearClick residual s).osLive = s.osLive - 1 ∧
      (clearClick residual s).process = none) := by
  refine ⟨?_, ?_, ?_⟩
  · obtain ⟨h1, -, -, -⟩ := inv_reach ops
    rw [h1]
    split
    · decide
    · decide
  · intro hne
    unfold startClick at hne
    by_cases hr : s.running = true
    · rw [if_pos hr] at hne
      exact absurd rfl hne
    · rw [if_neg hr] at hne
      by_cases hg : s.process = none ∨ processAlive s = false
      · exact hg
      · rw [if_neg hg] at hne
        exact absurd rfl hne
  · intro ha hen
    unfold clearClick
    rw [if_pos hen, if_pos ha]
    refine ⟨?_, rfl⟩
    simp [joinWorker, foldl_rawEmit_osLive]

theorem at_most_one_live_worker_witness :
    (runOps initState [.start true 5, .work 3, .pause]).osLive ≤ 1 ∧
    processAlive (runOps initState [.start true 5]) = true ∧
    (clearClick [9] (runOps initState [.start true 5])).osLive =
      (runOps initState [.start true 5]).osLive - 1 :=
  ⟨(at_most_one_live_worker [.start true 5, .work 3, .pause] initState true 5 []).1,
   by decide,
   ((at_most_one_live_worker [] (runOps initState [.start true 5]) true 5 [9]).2.2
      (by decide) (by decide)).1⟩

/-- C3: an iteration of the worker loop that observes `pause_flag` set (and
`stop_flag` clear) pushes nothing, leaves the counter untouched, stays
alive, and sleeps only the fixed 100 ms quantum; after any number of such
paused iterations, the first iteration that observes the pause flag cleared
emits again, with the next counter value. -/
theorem paused_no_emit_then_resume (pid t now k : Nat) (s : ProdState) :
    workerStep pid ⟨false, true, t⟩ s = (s, .pausedIdle) ∧
    iterSleepMs .pausedIdle = 100 ∧
    workerRun pid s (List.replicate k ⟨false, true, t⟩ ++ [⟨false, false, now⟩]) =
      (⟨s.counter + 1, s.queue ++ [⟨now, s.counter + 1, pid⟩]⟩,
        List.replicate k .pausedIdle ++ [.emit]) := by
  refine ⟨rfl, rfl, ?_⟩
  induction k generalizing s with
  | zero => rfl
  | succ k ih =>
    simp only [List.replicate_succ, List.cons_append]
    simp [workerRun, workerStep, ih]

/-- C4: an iteration of the worker loop that observes `stop_flag` set — the
stop check comes first, whatever the pause flag holds — pushes nothing,
leaves the counter untouched, does not sleep, and terminates the loop
immediately, consuming no further observations. -/
theorem stop_halts_immediately (pid t : Nat) (p : Bool) (s : ProdState)
    (obs : List Obs) :
    workerStep pid ⟨true, p, t⟩ s = (s, .halted) ∧
    iterSleepMs .halted = 0 ∧
    workerRun pid s (⟨true, p, t⟩ :: obs) = (s, [.halted]) := by
  refine ⟨rfl, rfl, ?_⟩
  simp only [workerRun, workerStep]
  rfl

/-- C5: in every reachable state, the `step` values of the samples retained
since the last clear — buffer first, then the queue, i.e. emission order —
are exactly 1, 2, ..., counter; in particular the buffer built by
successive drains carries steps 1, 2, ..., length in order, with no
duplicates and no gaps. -/
theorem run_steps_contiguous (ops : List Op) :
    List.map Sample.step
        ((runOps initState ops).local_data ++ (runOps initState ops).data_queue) =
      List.range' 1 (runOps initState ops).counter ∧
    List.map Sample.step (runOps initState ops).local_data =
      List.range' 1 (runOps initState ops).local_data.length := by
  obtain ⟨-, -, h3, -⟩ := inv_reach ops
  refine ⟨h3, ?_⟩
  have hlen : (runOps initState ops).local_data.length +
      (runOps initState ops).data_queue.length = (runOps initState ops).counter := by
    have := congrArg List.length h3
    simpa using this
  have hsplit := List.range'_append_1 1 (runOps initState ops).local_data.length
    (runOps initState ops).data_queue.length
  rw [Nat.add_comm] at hlen
  rw [hlen] at hsplit
  rw [List.map_append, ← hsplit] at h3
  exact (List.append_inj h3 (by simp)).1

/-- C6: in every reachable state, the samples retained in the buffer and
the queue are verbatim a suffix of the ghost emission log — each was
constructed by the worker and no field of it has changed since
construction; and the timestamp's string conversion performed at drain time
is lossless. -/
theorem samples_immutable (ops : List Op) (t : Nat) :
    ((runOps initState ops).local_data ++ (runOps initState ops).data_queue) <:+
      (runOps initState ops).emitted ∧
    fromisoformat (isoformat t) = some t :=
  ⟨(inv_reach ops).2.2.2, fromisoformat_isoformat t⟩

/-- C7: serializing any buffer of samples to the CSV artifact and parsing
it back reproduces the same ordered sample sequence; in particular for the
two samples with steps 1 and 2, pid 100 and timestamps 5 < 9. -/
theorem csv_round_trip (l : List Sample) :
    parseCsv (toCsv l) = some l ∧
    parseCsv (toCsv [⟨5, 1, 100⟩, ⟨9, 2, 100⟩]) =
      some [⟨5, 1, 100⟩, ⟨9, 2, 100⟩] :=
  ⟨parseCsv_toCsv l, parseCsv_toCsv _⟩

/-- C8: `startClick` is a no-op surfacing nothing when a live worker handle
is held; otherwise (in any state where `running` implies a live handle) it
clears both flags, stores exactly one new live handle, sets `running`, and
raises nothing; and when spawning fails it surfaces the failure and
`running` stays false. -/
theorem start_noop_or_spawn (s : AppState) (ok : Bool) (pid : Nat)
    (hrp : s.running = true → processAlive s = true) :
    (processAlive s = true → startClick ok pid s = (s, false)) ∧
    (processAlive s = false →
      (startClick true pid s).1.stop_event = false ∧
      (startClick true pid s).1.pause_event = false ∧
      (startClick true pid s).1.process = some ⟨pid, true⟩ ∧
      (startClick true pid s).1.running = true ∧
      (startClick true pid s).1.osLive = s.osLive + 1 ∧
      (startClick true pid s).2 = false) ∧
    (processAlive s = false →
      (startClick false pid s).2 = true ∧
      (startClick false pid s).1.running = false) := by
  have hrun : processAlive s = false → s.running = false := by
    intro ha
    cases hr : s.running
    · rfl
    · exact absurd (hrp hr) (by simp [ha])
  refine ⟨?_, ?_, ?_⟩
  · intro ha
    unfold startClick
    by_cases hr : s.running = true
    · rw [if_pos hr]
    · have hg : ¬(s.process = none ∨ processAlive s = false) := by
        rintro (hp | hp)
        · simp [processAlive, hp] at ha
        · simp [hp] at ha
      rw [if_neg hr, if_neg hg]
  · intro ha
    have hr := hrun ha
    unfold startClick
    rw [if_neg (by simp [hr]), if_pos (Or.inr ha)]
    exact ⟨rfl, rfl, rfl, rfl, rfl, rfl⟩
  · intro ha
    have hr := hrun ha
    unfold startClick
    rw [if_neg (by simp [hr]), if_pos (Or.inr ha)]
    exact ⟨rfl, hr⟩

theorem start_noop_or_spawn_witness :
    (processAlive initState = false) ∧
    (startClick true 7 initState).1.running = true ∧
    (startClick false 7 initState).2 = true ∧
    (startClick false 7 initState).1.running = false ∧
    startClick true 7 (runOps initState [.start true 5]) =
      (runOps initState [.start true 5], false) :=
  ⟨by decide,
   ((start_noop_or_spawn initState true 7 (by decide)).2.1 (by decide)).2.2.2.1,
   ((start_noop_or_spawn initState false 7 (by decide)).2.2 (by decide)).1,
   ((start_noop_or_spawn initState false 7 (by decide)).2.2 (by decide)).2,
   (start_noop_or_spawn (runOps initState [.start true 5]) true 7
      (fun _ => by decide)).1 (by decide)⟩

/-- C9: the drain loop runs only while `running` (otherwise it is the
identity); while running it moves the whole queue, in pop order, to the end
of the buffer and leaves the queue empty; it is a total function (never
blocks, never raises) that preserves the retained-sample sequence, and in
any reachable running state the drained buffer's steps are exactly
1, ..., counter — the worker's emission order. -/
theorem drain_appends_in_order (s : AppState) (ops : List Op) :
    (s.running = false → drainStep s = s) ∧
    (s.running = true →
      (drainStep s).local_data = s.local_data ++ s.data_queue ∧
      (drainStep s).data_queue = []) ∧
    ((drainStep s).local_data ++ (drainStep s).data_queue =
      s.local_data ++ s.data_queue) ∧
    ((runOps initState ops).running = true →
      List.map Sample.step (drainStep (runOps initState ops)).local_data =
        List.range' 1 (runOps initState ops).counter) := by
  refine ⟨?_, ?_, ?_, ?_⟩
  · intro hr
    unfold drainStep
    rw [if_neg (by simp [hr])]
  · intro hr
    unfold drainStep
    rw [if_pos hr]
    exact ⟨rfl, rfl⟩
  · unfold drainStep
    by_cases hr : s.running = true
    · rw [if_pos hr]
      simp
    · rw [if_neg hr]
  · intro hr
    obtain ⟨-, -, h3, -⟩ := inv_reach ops
    unfold drainStep
    rw [if_pos hr]
    simpa using h3

theorem drain_appends_in_order_witness :
    ((runOps initState [.start true 5, .work 3]).running = true) ∧
    (drainStep (runOps initState [.start true 5, .work 3])).local_data =
      (runOps initState [.start true 5, .work 3]).local_data ++
        (runOps initState [.start true 5, .work 3]).data_queue ∧
    List.map Sample.step
        (drainStep (runOps initState [.start true 5, .work 3])).local_data =
      List.range' 1 (runOps initState [.start true 5, .work 3]).counter :=
  ⟨by decide,
   ((drain_appends_in_order (runOps initState [.start true 5, .work 3])
      [.start true 5, .work 3]).2.1 (by decide)).1,
   (drain_appends_in_order (runOps initState [.start true 5, .work 3])
      [.start true 5, .work 3]).2.2.2 (by decide)⟩

/-- C10: `startClick` leaves the counter, the buffer, the queue and the
emission history untouched in every branch (it mutates only the flags, the
handle, `running` and the live-unit count); consequently a run begun right
after an enabled `clear()` emits step 1 first, only because `clear()` reset
the counter. -/
theorem start_frame (ok : Bool) (pid now : Nat) (residual : List Nat)
    (s : AppState) (henabled : s.local_data ≠ [] ∨ s.running = true) :
    ((startClick ok pid s).1.counter = s.counter ∧
     (startClick ok pid s).1.local_data = s.local_data ∧
     (startClick ok pid s).1.data_queue = s.data_queue ∧
     (startClick ok pid s).1.emitted = s.emitted) ∧
    ((workEmit now (startClick true pid (clearClick residual s)).1).data_queue =
       [⟨now, 1, pid⟩] ∧
     (workEmit now (startClick true pid (clearClick residual s)).1).counter = 1) := by
  constructor
  · unfold startClick
    by_cases hr : s.running = true
    · rw [if_pos hr]
      exact ⟨rfl, rfl, rfl, rfl⟩
    · rw [if_neg hr]
      by_cases hg : s.process = none ∨ processAlive s = false
      · rw [if_pos hg]
        cases ok
        · exact ⟨rfl, rfl, rfl, rfl⟩
        · exact ⟨rfl, rfl, rfl, rfl⟩
      · rw [if_neg hg]
        exact ⟨rfl, rfl, rfl, rfl⟩
  · obtain ⟨ha, hb, hc, hd, he⟩ := clearClick_state residual s henabled
    rw [startClick_fields pid (clearClick residual s) hc he]
    constructor
    · simp [workEmit, rawEmit, processAlive, pidOfProc, hd, hb]
    · simp [workEmit, rawEmit, processAlive, hb]

theorem start_frame_witness :
    ((runOps initState [.start true 5, .work 3]).local_data ≠ [] ∨
      (runOps initState [.start true 5, .work 3]).running = true) ∧
    (workEmit 4 (startClick true 7
        (clearClick [] (runOps initState [.start true 5, .work 3]))).1).data_queue =
      [⟨4, 1, 7⟩] ∧
    (startClick false 7 (runOps initState [.start true 5, .work 3])).1.counter =
      (runOps initState [.start true 5, .work 3]).counter :=
  ⟨by decide,
   (start_frame true 7 4 [] (runOps initState [.start true 5, .work 3])
      (by decide)).2.1,
   (start_frame false 7 4 [] (runOps initState [.start true 5, .work 3])
      (by decide)).1.1⟩
